import Mathlib

/-!
envy: profile script generation (`cmd/profile.go`).

A shallow embedding of `GenerateLoadScript`, `GenerateUnloadScript` and
`removeFromPath`, together with the properties stated about them.

Modelling conventions.

* A Go `string` is a Lean `String`; the separator `:` is a single byte that
  occurs in no multi-byte UTF-8 sequence, so splitting by characters and by
  bytes agree.
* A Go `[]string` built with `append` is a `List String`; `append(script, x)`
  is `script ++ [x]`.
* A Go `map[string]string` is represented by the list of its entries in the
  order in which a `range` loop visits them.
* `fmt.Sprintf` with `%s` verbs is string concatenation.
* The process environment is explicit: `os.Getenv` and `os.ExpandEnv` are
  function parameters of `GenerateUnloadScript`.
-/

namespace strings

/-- Segments of a character sequence separated by the character `sep`; there is
always one more segment than there are occurrences of `sep`. -/
def splitChars (sep : Char) : List Char → List (List Char)
  | [] => [[]]
  | c :: cs =>
    if c = sep then [] :: splitChars sep cs
    else
      match splitChars sep cs with
      | [] => [[c]]
      | seg :: segs => (c :: seg) :: segs

/-- Go `strings.Split(s, sep)` for a one-character separator: all substrings of
`s` between occurrences of `sep`, empty substrings included. -/
def Split (s : String) (sep : Char) : List String :=
  (splitChars sep s.data).map String.mk

/-- Character-level counterpart of `Join`, used to reason about `Split`. -/
def joinChars (sep : Char) : List (List Char) → List Char
  | [] => []
  | [a] => a
  | a :: b :: rest => a ++ sep :: joinChars sep (b :: rest)

/-- Go `strings.Join(elems, sep)`. -/
def Join : List String → String → String
  | [], _ => ""
  | [a], _ => a
  | a :: b :: rest, sep => a ++ sep ++ Join (b :: rest) sep

end strings

/-- The `Profile` struct of `cmd/profile.go`. -/
structure Profile where
  Variables : List (String × String)
  Path : List String
  Aliases : List (String × String)
  Functions : List (String × String)
  PreLoad : String
  PostLoad : String
  PreUnload : String
  PostUnload : String

/-- The zero value `Profile{}`. -/
def Profile.empty : Profile :=
  { Variables := [], Path := [], Aliases := [], Functions := [],
    PreLoad := "", PostLoad := "", PreUnload := "", PostUnload := "" }

/-- The slice `script` of `GenerateLoadScript` just before the final join. -/
def loadStatements (p : Profile) : List String :=
  let script : List String := []
  let script :=
    if p.PreLoad ≠ "" then
      script ++ ["preload() \x7b\n" ++ p.PreLoad ++ "\n\x7d\npreload"]
    else script
  let script := p.Variables.foldl
    (fun script kv => script ++ ["export " ++ kv.1 ++ "=\"" ++ kv.2 ++ "\""]) script
  let script :=
    if p.Path.length > 0 then
      script ++ ["export PATH=\"" ++ strings.Join p.Path ":" ++ ":$PATH\""]
    else script
  let script := p.Functions.foldl
    (fun script kv => script ++ [kv.1 ++ "() \x7b\n" ++ kv.2 ++ "\n\x7d"]) script
  let script := p.Aliases.foldl
    (fun script kv => script ++ ["alias " ++ kv.1 ++ "=\x27" ++ kv.2 ++ "\x27"]) script
  let script :=
    if p.PostLoad ≠ "" then
      script ++ ["postload() \x7b\n" ++ p.PostLoad ++ "\n\x7d\npostload"]
    else script
  script

/-- The method `GenerateLoadScript`. -/
def GenerateLoadScript (p : Profile) : String :=
  strings.Join (loadStatements p) "\n"

/-- The function `removeFromPath`. -/
def removeFromPath (path profilePath : String) : String :=
  let pathSegments := strings.Split path ':'
  let newPathSegments := pathSegments.foldl
    (fun newPathSegments segment =>
      if segment ≠ profilePath then newPathSegments ++ [segment] else newPathSegments)
    ([] : List String)
  let newPath := strings.Join newPathSegments ":"
  newPath

/-- The loop of `GenerateUnloadScript` that computes `pathEnv`: starting from the
current PATH value, every entry of `Path` is expanded and removed in turn. -/
def unloadPathEnv (ExpandEnv : String → String) (pathEnv : String) (Path : List String) :
    String :=
  Path.foldl (fun pathEnv path =>
    let resolved := ExpandEnv path
    removeFromPath pathEnv resolved) pathEnv

/-- The slice `script` of `GenerateUnloadScript` just before the final join. -/
def unloadStatements (Getenv ExpandEnv : String → String) (p : Profile) : List String :=
  let script : List String := []
  let script :=
    if p.PreUnload ≠ "" then
      script ++ ["preunload() \x7b\n" ++ p.PostUnload ++ "\n\x7d\npreunload"]
    else script
  let script := p.Variables.foldl
    (fun script kv => script ++ ["unset " ++ kv.1]) script
  let pathEnv := unloadPathEnv ExpandEnv (Getenv "PATH") p.Path
  let script := script ++ ["export PATH=" ++ pathEnv]
  let script := p.Functions.foldl
    (fun script kv => script ++ ["unset -f " ++ kv.1]) script
  let script := p.Aliases.foldl
    (fun script kv => script ++ ["unalias " ++ kv.1 ++ " 2>/dev/null || true"]) script
  let script :=
    if p.PostUnload ≠ "" then
      script ++ ["postunload() \x7b\n" ++ p.PostUnload ++ "\n\x7d\npostunload"]
    else script
  script

/-- The method `GenerateUnloadScript`. -/
def GenerateUnloadScript (Getenv ExpandEnv : String → String) (p : Profile) : String :=
  strings.Join (unloadStatements Getenv ExpandEnv p) "\n"

/-- PATH Algebra as the specification words it (section 4.2): split the PATH value
on `:`, environment-expand every entry to remove, drop every segment equal to
some expanded entry, and re-join the surviving segments with `:`, in one pass. -/
def removeSegments (expand : String → String) (pathValue : String)
    (segmentsToRemove : List String) : String :=
  let segments := strings.Split pathValue ':'
  let targets := segmentsToRemove.map expand
  let surviving := segments.filter (fun seg => decide (seg ∉ targets))
  strings.Join surviving ":"

/-- An environment-expansion function for an environment in which the only
variable referenced is `name`, with value `value`: the reference `$name`
expands to `value`, any other string used below is left as it is. -/
def expandOnly (name value : String) (s : String) : String :=
  if s = "$" ++ name then value else s

/-! Auxiliary lemmas: loops as list operations -/

theorem foldl_append_map {α β : Type} (f : α → β) (l : List α) (init : List β) :
    l.foldl (fun acc x => acc ++ [f x]) init = init ++ l.map f := by
  induction l generalizing init with
  | nil => simp
  | cons a t ih => simp [ih]

theorem foldl_append_filter {α : Type} (q : α → Prop) [DecidablePred q] (l : List α)
    (init : List α) :
    l.foldl (fun acc x => if q x then acc ++ [x] else acc) init
      = init ++ l.filter (fun x => decide (q x)) := by
  induction l generalizing init with
  | nil => simp
  | cons a t ih =>
    by_cases h : q a <;> simp [ih, h, List.filter_cons]

/-! Auxiliary lemmas: splitting and joining character sequences -/

namespace strings

theorem splitChars_ne_nil (sep : Char) (cs : List Char) : splitChars sep cs ≠ [] := by
  cases cs with
  | nil => simp [splitChars]
  | cons c t =>
    unfold splitChars
    split
    · simp
    · split <;> simp

theorem joinChars_splitChars (sep : Char) (cs : List Char) :
    joinChars sep (splitChars sep cs) = cs := by
  induction cs with
  | nil => rfl
  | cons c t ih =>
    unfold splitChars
    by_cases h : c = sep
    · simp only [h, if_true]
      cases hs : splitChars sep t with
      | nil => exact absurd hs (splitChars_ne_nil sep t)
      | cons a r => rw [hs] at ih; simp [joinChars, ih]
    · simp only [h, if_false]
      cases hs : splitChars sep t with
      | nil => exact absurd hs (splitChars_ne_nil sep t)
      | cons a r =>
        rw [hs] at ih
        cases r with
        | nil => simpa [joinChars] using ih
        | cons b r2 => simp only [joinChars] at ih ⊢; simp [ih]

theorem splitChars_of_not_mem (sep : Char) (x : List Char) (hx : sep ∉ x) :
    splitChars sep x = [x] := by
  induction x with
  | nil => rfl
  | cons c t ih =>
    have hc : c ≠ sep := fun h => hx (by simp [h])
    have ht : sep ∉ t := fun h => hx (by simp [h])
    simp [splitChars, hc, ih ht]

theorem splitChars_append_sep (sep : Char) (x rest : List Char) (hx : sep ∉ x) :
    splitChars sep (x ++ sep :: rest) = x :: splitChars sep rest := by
  induction x with
  | nil => simp [splitChars]
  | cons c t ih =>
    have hc : c ≠ sep := fun h => hx (by simp [h])
    have ht : sep ∉ t := fun h => hx (by simp [h])
    simp [splitChars, hc, ih ht]

theorem splitChars_joinChars (sep : Char) (l : List (List Char)) (hl : l ≠ [])
    (hx : ∀ x ∈ l, sep ∉ x) : splitChars sep (joinChars sep l) = l := by
  induction l with
  | nil => exact absurd rfl hl
  | cons a t ih =>
    cases t with
    | nil => simpa [joinChars] using splitChars_of_not_mem sep a (hx a (by simp))
    | cons b r =>
      have hb : splitChars sep (joinChars sep (b :: r)) = b :: r :=
        ih (by simp) (fun x h => hx x (List.mem_cons_of_mem _ h))
      simp only [joinChars]
      rw [splitChars_append_sep sep a _ (hx a (by simp)), hb]

theorem not_mem_of_mem_splitChars (sep : Char) (cs x : List Char)
    (h : x ∈ splitChars sep cs) : sep ∉ x := by
  induction cs generalizing x with
  | nil => simp [splitChars] at h; simp [h]
  | cons c t ih =>
    unfold splitChars at h
    by_cases hc : c = sep
    · simp only [hc, if_true, List.mem_cons] at h
      rcases h with h | h
      · simp [h]
      · exact ih x h
    · simp only [hc, if_false] at h
      cases hs : splitChars sep t with
      | nil => exact absurd hs (splitChars_ne_nil sep t)
      | cons a r =>
        rw [hs] at h ih
        simp only [List.mem_cons] at h
        rcases h with h | h
        · subst h
          have ha : sep ∉ a := ih a (by simp)
          intro hm
          rcases List.mem_cons.1 hm with e | e
          · exact hc e.symm
          · exact ha e
        · exact ih x (List.mem_cons_of_mem _ h)

theorem Join_data (l : List String) (sep : Char) :
    (Join l (String.singleton sep)).data = joinChars sep (l.map String.data) := by
  induction l with
  | nil => rfl
  | cons a t ih =>
    cases t with
    | nil => rfl
    | cons b r =>
      simp only [Join, List.map_cons, joinChars, String.data_append]
      rw [ih]
      simp [String.singleton]

theorem map_data_map_mk (l : List (List Char)) : (l.map String.mk).map String.data = l := by
  induction l with
  | nil => rfl
  | cons a t ih => simp only [List.map_cons, ih]

theorem map_mk_map_data (l : List String) : (l.map String.data).map String.mk = l := by
  induction l with
  | nil => rfl
  | cons a t ih => simp only [List.map_cons, ih]

/-- Splitting at `:` and joining with `:` gives back the string. -/
theorem Join_Split (s : String) : Join (Split s ':') ":" = s := by
  apply String.ext
  have h := Join_data (Split s ':') ':'
  rw [show String.singleton ':' = ":" from rfl] at h
  rw [h, Split, map_data_map_mk, joinChars_splitChars]

theorem Split_ne_nil (s : String) : Split s ':' ≠ [] := by
  simp [Split, splitChars_ne_nil]

/-- No segment produced by `Split` contains the separator. -/
theorem not_mem_of_mem_Split (s x : String) (h : x ∈ Split s ':') : ':' ∉ x.data := by
  simp only [Split, List.mem_map] at h
  obtain ⟨cs, hcs, rfl⟩ := h
  exact not_mem_of_mem_splitChars ':' s.data cs hcs

/-- Joining a non-empty list of `:`-free strings and splitting again gives back
the list. -/
theorem Split_Join (l : List String) (hl : l ≠ []) (hx : ∀ x ∈ l, ':' ∉ x.data) :
    Split (Join l ":") ':' = l := by
  have h := Join_data l ':'
  rw [show String.singleton ':' = ":" from rfl] at h
  rw [Split, h, splitChars_joinChars, map_mk_map_data]
  · simpa using hl
  · intro x hxm
    simp only [List.mem_map] at hxm
    obtain ⟨y, hy, rfl⟩ := hxm
    exact hx y hy

theorem Join_nil (sep : String) : Join [] sep = "" := rfl

theorem Split_empty : Split "" ':' = [""] := rfl

end strings

/-! Auxiliary lemmas: `removeFromPath` and the unload loop -/

theorem removeFromPath_eq_filter (path target : String) :
    removeFromPath path target
      = strings.Join ((strings.Split path ':').filter (fun seg => decide (seg ≠ target))) ":" := by
  unfold removeFromPath
  simp only [foldl_append_filter (fun seg => seg ≠ target), List.nil_append]

theorem removeFromPath_empty (target : String) : removeFromPath "" target = "" := by
  rw [removeFromPath_eq_filter, strings.Split_empty]
  by_cases h : "" = target
  · simp [List.filter, h, strings.Join]
  · simp [List.filter, h, strings.Join]

theorem unloadPathEnv_nil (ExpandEnv : String → String) (pathEnv : String) :
    unloadPathEnv ExpandEnv pathEnv [] = pathEnv := rfl

theorem unloadPathEnv_cons (ExpandEnv : String → String) (pathEnv e : String)
    (es : List String) :
    unloadPathEnv ExpandEnv pathEnv (e :: es)
      = unloadPathEnv ExpandEnv (removeFromPath pathEnv (ExpandEnv e)) es := rfl

theorem unloadPathEnv_empty (ExpandEnv : String → String) (es : List String) :
    unloadPathEnv ExpandEnv "" es = "" := by
  induction es with
  | nil => rfl
  | cons e t ih => rw [unloadPathEnv_cons, removeFromPath_empty, ih]

/-- The unload loop run on a joined list of `:`-free segments keeps exactly the
segments that differ from every expanded entry. -/
theorem unloadPathEnv_Join (ExpandEnv : String → String) (es l : List String)
    (hl : ∀ x ∈ l, ':' ∉ x.data) :
    unloadPathEnv ExpandEnv (strings.Join l ":") es
      = strings.Join (l.filter (fun seg => decide (∀ e ∈ es, seg ≠ ExpandEnv e))) ":" := by
  induction es generalizing l with
  | nil => simp [unloadPathEnv_nil]
  | cons e t ih =>
    rw [unloadPathEnv_cons]
    by_cases hl0 : l = []
    · subst hl0
      simp [strings.Join_nil, removeFromPath_empty, unloadPathEnv_empty]
    · rw [removeFromPath_eq_filter, strings.Split_Join l hl0 hl, ih _
        (fun x hx => hl x (List.mem_of_mem_filter hx)), List.filter_filter]
      congr 1
      apply List.filter_congr
      intro seg _
      simp only [List.forall_mem_cons, Bool.decide_and, Bool.and_comm]

theorem unloadPathEnv_eq_filter (ExpandEnv : String → String) (cur : String)
    (es : List String) :
    unloadPathEnv ExpandEnv cur es
      = strings.Join ((strings.Split cur ':').filter
          (fun seg => decide (∀ e ∈ es, seg ≠ ExpandEnv e))) ":" := by
  have h := unloadPathEnv_Join ExpandEnv es (strings.Split cur ':')
    (fun x hx => strings.not_mem_of_mem_Split cur x hx)
  rwa [strings.Join_Split] at h

/-- When the exported PATH is not empty, its segments are exactly the kept ones. -/
theorem Split_unloadPathEnv (ExpandEnv : String → String) (cur : String) (es : List String)
    (h : unloadPathEnv ExpandEnv cur es ≠ "") :
    strings.Split (unloadPathEnv ExpandEnv cur es) ':'
      = (strings.Split cur ':').filter (fun seg => decide (∀ e ∈ es, seg ≠ ExpandEnv e)) := by
  rw [unloadPathEnv_eq_filter] at h ⊢
  apply strings.Split_Join
  · intro h0
    rw [h0] at h
    exact h rfl
  · intro x hx
    exact strings.not_mem_of_mem_Split cur x (List.mem_of_mem_filter hx)

theorem Join_append_of_ne_nil (l₁ l₂ : List String) (sep : String) (h₁ : l₁ ≠ [])
    (h₂ : l₂ ≠ []) :
    strings.Join (l₁ ++ l₂) sep = strings.Join l₁ sep ++ sep ++ strings.Join l₂ sep := by
  induction l₁ with
  | nil => exact absurd rfl h₁
  | cons a t ih =>
    cases t with
    | nil =>
      cases l₂ with
      | nil => exact absurd rfl h₂
      | cons b r => simp [strings.Join]
    | cons b r =>
      have hb := ih (by simp)
      simp only [List.cons_append] at hb ⊢
      simp only [strings.Join, hb, String.append_assoc]

/-! Auxiliary lemmas: the statement lists of the two generators -/

theorem loadStatements_eq (p : Profile) :
    loadStatements p
      = (if p.PreLoad ≠ "" then ["preload() \x7b\n" ++ p.PreLoad ++ "\n\x7d\npreload"] else [])
        ++ p.Variables.map (fun kv => "export " ++ kv.1 ++ "=\"" ++ kv.2 ++ "\"")
        ++ (if p.Path ≠ [] then
              ["export PATH=\"" ++ strings.Join p.Path ":" ++ ":$PATH\""] else [])
        ++ p.Functions.map (fun kv => kv.1 ++ "() \x7b\n" ++ kv.2 ++ "\n\x7d")
        ++ p.Aliases.map (fun kv => "alias " ++ kv.1 ++ "=\x27" ++ kv.2 ++ "\x27")
        ++ (if p.PostLoad ≠ "" then
              ["postload() \x7b\n" ++ p.PostLoad ++ "\n\x7d\npostload"] else []) := by
  unfold loadStatements
  simp only [foldl_append_map, List.nil_append]
  by_cases h1 : p.PreLoad = "" <;> by_cases h2 : p.Path = [] <;>
    by_cases h3 : p.PostLoad = "" <;>
    simp [h1, h2, h3, List.length_pos]

theorem unloadStatements_eq (Getenv ExpandEnv : String → String) (p : Profile) :
    unloadStatements Getenv ExpandEnv p
      = (if p.PreUnload ≠ "" then
            ["preunload() \x7b\n" ++ p.PostUnload ++ "\n\x7d\npreunload"] else [])
        ++ p.Variables.map (fun kv => "unset " ++ kv.1)
        ++ ["export PATH=" ++ unloadPathEnv ExpandEnv (Getenv "PATH") p.Path]
        ++ p.Functions.map (fun kv => "unset -f " ++ kv.1)
        ++ p.Aliases.map (fun kv => "unalias " ++ kv.1 ++ " 2>/dev/null || true")
        ++ (if p.PostUnload ≠ "" then
              ["postunload() \x7b\n" ++ p.PostUnload ++ "\n\x7d\npostunload"] else []) := by
  unfold unloadStatements
  simp only [foldl_append_map, List.nil_append]
  by_cases h1 : p.PreUnload = "" <;> by_cases h3 : p.PostUnload = "" <;>
    simp [h1, h3]

/-! The load script -/

/-- C1: `GenerateLoadScript p` is the newline-join of, in this order: the
`preload` hook with its invocation iff `PreLoad` is non-empty; one `export K="V"`
per entry of `Variables`; one `export PATH="<entries joined by :>:$PATH"` iff
`Path` is non-empty; one function definition per entry of `Functions`; one
`alias N='C'` per entry of `Aliases`; the `postload` hook with its invocation iff
`PostLoad` is non-empty. The all-empty profile gives the empty script, and the
profile with only `path = ["/opt/tool/bin"]` gives the single PATH export. -/
theorem GenerateLoadScript_emission :
    (∀ p : Profile,
      GenerateLoadScript p
        = strings.Join
            ((if p.PreLoad ≠ "" then
                ["preload() \x7b\n" ++ p.PreLoad ++ "\n\x7d\npreload"] else [])
              ++ p.Variables.map (fun kv => "export " ++ kv.1 ++ "=\"" ++ kv.2 ++ "\"")
              ++ (if p.Path ≠ [] then
                    ["export PATH=\"" ++ strings.Join p.Path ":" ++ ":$PATH\""] else [])
              ++ p.Functions.map (fun kv => kv.1 ++ "() \x7b\n" ++ kv.2 ++ "\n\x7d")
              ++ p.Aliases.map (fun kv => "alias " ++ kv.1 ++ "=\x27" ++ kv.2 ++ "\x27")
              ++ (if p.PostLoad ≠ "" then
                    ["postload() \x7b\n" ++ p.PostLoad ++ "\n\x7d\npostload"] else []))
            "\n")
    ∧ GenerateLoadScript Profile.empty = ""
    ∧ GenerateLoadScript { Profile.empty with Path := ["/opt/tool/bin"] }
        = "export PATH=\"/opt/tool/bin:$PATH\"" := by
  refine ⟨fun p => ?_, by decide, by decide⟩
  unfold GenerateLoadScript
  rw [loadStatements_eq]

/-! The unload script -/

/-- C2: the statements of `GenerateUnloadScript p` after the optional pre-unload
hook (present exactly when `PreUnload` is non-empty) are, in this order: one
`unset K` per key of `Variables`; one `export PATH=<reduced PATH>`, where the
reduced PATH is the `:`-join of the segments of the current PATH that differ
from every expanded `Path` entry, and which with an empty `Path` is the current
PATH unchanged; one `unset -f N` per key of `Functions`; one
`unalias N 2>/dev/null || true` per key of `Aliases`; the `postunload` hook with
its invocation iff `PostUnload` is non-empty. The script is their newline-join,
and the all-empty profile gives exactly `export PATH=<current PATH>`. -/
theorem GenerateUnloadScript_emission (Getenv ExpandEnv : String → String) (p : Profile) :
    (∃ hook : List String,
      hook.length = (if p.PreUnload ≠ "" then 1 else 0)
      ∧ unloadStatements Getenv ExpandEnv p
          = hook
            ++ p.Variables.map (fun kv => "unset " ++ kv.1)
            ++ ["export PATH=" ++ strings.Join
                  ((strings.Split (Getenv "PATH") ':').filter
                    (fun seg => decide (∀ e ∈ p.Path, seg ≠ ExpandEnv e))) ":"]
            ++ p.Functions.map (fun kv => "unset -f " ++ kv.1)
            ++ p.Aliases.map (fun kv => "unalias " ++ kv.1 ++ " 2>/dev/null || true")
            ++ (if p.PostUnload ≠ "" then
                  ["postunload() \x7b\n" ++ p.PostUnload ++ "\n\x7d\npostunload"] else [])
      ∧ GenerateUnloadScript Getenv ExpandEnv p
          = strings.Join
              (hook
                ++ p.Variables.map (fun kv => "unset " ++ kv.1)
                ++ ["export PATH=" ++ removeSegments ExpandEnv (Getenv "PATH") p.Path]
                ++ p.Functions.map (fun kv => "unset -f " ++ kv.1)
                ++ p.Aliases.map (fun kv => "unalias " ++ kv.1 ++ " 2>/dev/null || true")
                ++ (if p.PostUnload ≠ "" then
                      ["postunload() \x7b\n" ++ p.PostUnload ++ "\n\x7d\npostunload"]
                    else []))
              "\n"
      ∧ unloadStatements Getenv ExpandEnv { p with Path := [] }
          = hook
            ++ p.Variables.map (fun kv => "unset " ++ kv.1)
            ++ ["export PATH=" ++ Getenv "PATH"]
            ++ p.Functions.map (fun kv => "unset -f " ++ kv.1)
            ++ p.Aliases.map (fun kv => "unalias " ++ kv.1 ++ " 2>/dev/null || true")
            ++ (if p.PostUnload ≠ "" then
                  ["postunload() \x7b\n" ++ p.PostUnload ++ "\n\x7d\npostunload"] else []))
    ∧ GenerateUnloadScript Getenv ExpandEnv Profile.empty
        = "export PATH=" ++ Getenv "PATH"
    ∧ GenerateUnloadScript (fun _ => "/usr/bin:/opt/tool/bin:/bin") id
        { Profile.empty with
            Variables := [("FOO", "bar")], Path := ["/opt/tool/bin"],
            Functions := [("greet", "echo hi")], Aliases := [("ll", "ls -l")] }
        = "unset FOO\nexport PATH=/usr/bin:/bin\nunset -f greet\nunalias ll 2>/dev/null || true" := by
  refine ⟨⟨if p.PreUnload ≠ "" then
      ["preunload() \x7b\n" ++ p.PostUnload ++ "\n\x7d\npreunload"] else [],
    ?_, ?_, ?_, ?_⟩, ?_, by decide⟩
  · by_cases h : p.PreUnload = "" <;> simp [h]
  · rw [unloadStatements_eq, unloadPathEnv_eq_filter]
  · have hrs : removeSegments ExpandEnv (Getenv "PATH") p.Path
        = unloadPathEnv ExpandEnv (Getenv "PATH") p.Path := by
      rw [unloadPathEnv_eq_filter]
      unfold removeSegments
      simp only
      congr 1
      apply List.filter_congr
      intro seg _
      simp [eq_comm]
    unfold GenerateUnloadScript
    rw [unloadStatements_eq, hrs]
  · rw [unloadStatements_eq]
    simp only [unloadPathEnv_nil]
  · unfold GenerateUnloadScript
    rw [unloadStatements_eq]
    simp [Profile.empty, unloadPathEnv_nil, strings.Join]

/-- C3, evaluated on the profile with `preunload: "echo pre"` and
`postunload: "echo post"` and current PATH `/bin`: the `preunload` function
emitted first wraps the `PostUnload` body `echo post`, not the `PreUnload` body
`echo pre`; with an empty `PreUnload` no `preunload` hook is emitted. -/
theorem GenerateUnloadScript_preunload_body :
    GenerateUnloadScript (fun _ => "/bin") id
        { Profile.empty with PreUnload := "echo pre", PostUnload := "echo post" }
      = "preunload() \x7b\necho post\n\x7d\npreunload\nexport PATH=/bin\npostunload() \x7b\necho post\n\x7d\npostunload"
    ∧ (unloadStatements (fun _ => "/bin") id
        { Profile.empty with PreUnload := "echo pre", PostUnload := "echo post" }).head?
      ≠ some ("preunload() \x7b\n" ++ "echo pre" ++ "\n\x7d\npreunload")
    ∧ GenerateUnloadScript (fun _ => "/bin") id
        { Profile.empty with PreUnload := "echo pre" }
      = "preunload() \x7b\n\n\x7d\npreunload\nexport PATH=/bin"
    ∧ GenerateUnloadScript (fun _ => "/bin") id
        { Profile.empty with PostUnload := "echo post" }
      = "export PATH=/bin\npostunload() \x7b\necho post\n\x7d\npostunload" := by
  decide

/-! PATH segment removal -/

/-- C4: `removeFromPath path target` is the `:`-join of the `:`-split of `path`
with every element equal to `target` dropped, the others kept in their order;
`removeFromPath "/a:/b:/a" "/a" = "/b"`. -/
theorem removeFromPath_drops_all (path target : String) :
    removeFromPath path target
      = strings.Join ((strings.Split path ':').filter (fun seg => decide (seg ≠ target))) ":"
    ∧ removeFromPath "/a:/b:/a" "/a" = "/b" :=
  ⟨removeFromPath_eq_filter path target, by decide⟩

/-- C5: the PATH value computed by the unload loop (removing the expanded
entries one after the other, splitting and joining at every step) equals the
one-pass `removeSegments` of the specification; with `HOME=/a`, the current PATH
`/a:/b` and the entry `$HOME` the result is `/b`. -/
theorem unloadPathEnv_eq_removeSegments (ExpandEnv : String → String) (cur : String)
    (es : List String) :
    unloadPathEnv ExpandEnv cur es = removeSegments ExpandEnv cur es
    ∧ unloadPathEnv (expandOnly "HOME" "/a") "/a:/b" ["$HOME"] = "/b" := by
  refine ⟨?_, by decide⟩
  rw [unloadPathEnv_eq_filter]
  unfold removeSegments
  simp only
  congr 1
  apply List.filter_congr
  intro seg _
  simp [eq_comm]

/-- C6, as the code has it: the exported PATH is the `:`-join of the segments of
the current PATH that differ from every expanded `Path` entry, in their original
order, and these are its segments whenever it is not empty; and the expanded
value of an entry does not occur among the segments of the exported PATH,
provided the exported PATH is not empty or the entry does not expand to the
empty string. -/
theorem unloadPathEnv_excludes_entries (ExpandEnv : String → String) (cur : String)
    (es : List String) (e : String) (he : e ∈ es)
    (hne : unloadPathEnv ExpandEnv cur es ≠ "" ∨ ExpandEnv e ≠ "") :
    ExpandEnv e ∉ strings.Split (unloadPathEnv ExpandEnv cur es) ':'
    ∧ unloadPathEnv ExpandEnv cur es
        = strings.Join ((strings.Split cur ':').filter
            (fun seg => decide (∀ x ∈ es, seg ≠ ExpandEnv x))) ":"
    ∧ (unloadPathEnv ExpandEnv cur es ≠ "" →
        strings.Split (unloadPathEnv ExpandEnv cur es) ':'
          = (strings.Split cur ':').filter
              (fun seg => decide (∀ x ∈ es, seg ≠ ExpandEnv x))) := by
  refine ⟨?_, unloadPathEnv_eq_filter ExpandEnv cur es, Split_unloadPathEnv ExpandEnv cur es⟩
  by_cases hx : unloadPathEnv ExpandEnv cur es = ""
  · rw [hx, strings.Split_empty]
    rcases hne with h | h
    · exact absurd hx h
    · simpa using h
  · rw [Split_unloadPathEnv ExpandEnv cur es hx]
    intro hm
    have hd := (List.mem_filter.1 hm).2
    exact (of_decide_eq_true hd) e he rfl

/-- C6 witness: current PATH `/usr/bin:/opt/tool/bin:/bin` and the entry
`/opt/tool/bin`. -/
theorem unloadPathEnv_excludes_entries_witness :
    "/opt/tool/bin" ∉ strings.Split
        (unloadPathEnv id "/usr/bin:/opt/tool/bin:/bin" ["/opt/tool/bin"]) ':'
    ∧ unloadPathEnv id "/usr/bin:/opt/tool/bin:/bin" ["/opt/tool/bin"]
        = strings.Join ((strings.Split "/usr/bin:/opt/tool/bin:/bin" ':').filter
            (fun seg => decide (∀ x ∈ ["/opt/tool/bin"], seg ≠ id x))) ":"
    ∧ (unloadPathEnv id "/usr/bin:/opt/tool/bin:/bin" ["/opt/tool/bin"] ≠ "" →
        strings.Split (unloadPathEnv id "/usr/bin:/opt/tool/bin:/bin" ["/opt/tool/bin"]) ':'
          = (strings.Split "/usr/bin:/opt/tool/bin:/bin" ':').filter
              (fun seg => decide (∀ x ∈ ["/opt/tool/bin"], seg ≠ id x))) :=
  unloadPathEnv_excludes_entries id "/usr/bin:/opt/tool/bin:/bin" ["/opt/tool/bin"]
    "/opt/tool/bin" (by decide) (Or.inl (by decide))

/-- C6 as stated fails: with current PATH `/opt/tool/bin`, entries
`/opt/tool/bin` and `$EXTRA`, and `EXTRA` expanding to the empty string, the
exported PATH is the empty string, whose `:`-split is the single empty segment,
which is the expanded value of `$EXTRA`. -/
theorem unloadPathEnv_empty_entry_remains :
    "$EXTRA" ∈ ["/opt/tool/bin", "$EXTRA"]
    ∧ unloadPathEnv (expandOnly "EXTRA" "") "/opt/tool/bin" ["/opt/tool/bin", "$EXTRA"] = ""
    ∧ expandOnly "EXTRA" "" "$EXTRA" ∈ strings.Split
        (unloadPathEnv (expandOnly "EXTRA" "") "/opt/tool/bin" ["/opt/tool/bin", "$EXTRA"]) ':' := by
  decide

/-- C7: when `target` equals no `:`-separated segment of `path`,
`removeFromPath path target` is `path` itself; splitting on `:` and joining again
is the identity, so empty segments are kept; and removing an empty list of
entries leaves the current PATH unchanged. -/
theorem removeFromPath_absent (ExpandEnv : String → String) (path target cur : String)
    (h : target ∉ strings.Split path ':') :
    removeFromPath path target = path
    ∧ strings.Join (strings.Split path ':') ":" = path
    ∧ unloadPathEnv ExpandEnv cur [] = cur := by
  refine ⟨?_, strings.Join_Split path, rfl⟩
  rw [removeFromPath_eq_filter, List.filter_eq_self.2, strings.Join_Split]
  intro seg hseg
  have hne : seg ≠ target := fun e => h (e ▸ hseg)
  simpa using hne

/-- C7 witness: the PATH `:/a::/b:` with leading, doubled and trailing colons and
the absent target `/c`. -/
theorem removeFromPath_absent_witness :
    removeFromPath ":/a::/b:" "/c" = ":/a::/b:"
    ∧ strings.Join (strings.Split ":/a::/b:" ':') ":" = ":/a::/b:"
    ∧ unloadPathEnv id "/usr/bin::/bin" [] = "/usr/bin::/bin" :=
  removeFromPath_absent id ":/a::/b:" "/c" "/usr/bin::/bin" (by decide)

/-- C8: removing any target, the empty one included, from the empty PATH gives
the empty PATH, for one target and for any list of entries; hence with an empty
current PATH the unload script has the statement `export PATH=`, and it is the
whole script for a profile that has `Path` entries only. -/
theorem removeFromPath_empty_path (Getenv ExpandEnv : String → String) (p : Profile)
    (target : String) (es : List String) (h : Getenv "PATH" = "") :
    removeFromPath "" target = ""
    ∧ unloadPathEnv ExpandEnv "" es = ""
    ∧ "export PATH=" ∈ unloadStatements Getenv ExpandEnv p
    ∧ GenerateUnloadScript Getenv ExpandEnv { Profile.empty with Path := es }
        = "export PATH=" := by
  refine ⟨removeFromPath_empty target, unloadPathEnv_empty ExpandEnv es, ?_, ?_⟩
  · rw [unloadStatements_eq, h, unloadPathEnv_empty]
    simp
  · unfold GenerateUnloadScript
    rw [unloadStatements_eq, h]
    simp [Profile.empty, unloadPathEnv_empty, strings.Join]

/-- C8 witness: an environment without PATH, the empty target, and a profile
with a variable and two `Path` entries. -/
theorem removeFromPath_empty_path_witness :
    removeFromPath "" "" = ""
    ∧ unloadPathEnv id "" ["/opt/tool/bin", ""] = ""
    ∧ "export PATH=" ∈ unloadStatements (fun _ => "") id
        { Profile.empty with Variables := [("FOO", "bar")], Path := ["/opt/tool/bin", ""] }
    ∧ GenerateUnloadScript (fun _ => "") id
        { Profile.empty with Path := ["/opt/tool/bin", ""] } = "export PATH=" :=
  removeFromPath_empty_path (fun _ => "") id
    { Profile.empty with Variables := [("FOO", "bar")], Path := ["/opt/tool/bin", ""] }
    "" ["/opt/tool/bin", ""] rfl

/-- C9: unload undoes load on PATH. For a profile with a non-empty `Path` whose
entries contain no `:` and are unchanged by expansion, and a PATH value `P` none
of whose segments is an entry, the load script exports
`<entries joined by :>:$PATH`, and the unload loop applied to
`<entries joined by :>:P` gives back `P`. -/
theorem unload_undoes_load (ExpandEnv : String → String) (p : Profile) (P : String)
    (hne : p.Path ≠ [])
    (hcolon : ∀ e ∈ p.Path, ':' ∉ e.data)
    (hexp : ∀ e ∈ p.Path, ExpandEnv e = e)
    (hP : ∀ seg ∈ strings.Split P ':', seg ∉ p.Path) :
    "export PATH=\"" ++ strings.Join p.Path ":" ++ ":$PATH\"" ∈ loadStatements p
    ∧ unloadPathEnv ExpandEnv (strings.Join p.Path ":" ++ ":" ++ P) p.Path = P := by
  constructor
  · rw [loadStatements_eq]
    simp [hne]
  · have hjoin : strings.Join p.Path ":" ++ ":" ++ P
        = strings.Join (p.Path ++ strings.Split P ':') ":" := by
      rw [Join_append_of_ne_nil _ _ _ hne (strings.Split_ne_nil P), strings.Join_Split]
    have hfree : ∀ x ∈ p.Path ++ strings.Split P ':', ':' ∉ x.data := by
      intro x hx
      rcases List.mem_append.1 hx with h | h
      · exact hcolon x h
      · exact strings.not_mem_of_mem_Split P x h
    rw [hjoin, unloadPathEnv_Join ExpandEnv p.Path _ hfree, List.filter_append]
    have h1 : p.Path.filter (fun seg => decide (∀ e ∈ p.Path, seg ≠ ExpandEnv e)) = [] := by
      rw [List.filter_eq_nil_iff]
      intro a ha hd
      exact (of_decide_eq_true hd) a ha (hexp a ha).symm
    have h2 : (strings.Split P ':').filter
        (fun seg => decide (∀ e ∈ p.Path, seg ≠ ExpandEnv e)) = strings.Split P ':' := by
      rw [List.filter_eq_self]
      intro a ha
      apply decide_eq_true
      intro e he heq
      rw [hexp e he] at heq
      exact hP a ha (heq ▸ he)
    rw [h1, h2, List.nil_append, strings.Join_Split]

/-- C9 witness: entries `/opt/tool/bin` and `/opt/x` in front of `/usr/bin:/bin`. -/
theorem unload_undoes_load_witness :
    "export PATH=\"" ++ strings.Join ["/opt/tool/bin", "/opt/x"] ":" ++ ":$PATH\""
        ∈ loadStatements { Profile.empty with Path := ["/opt/tool/bin", "/opt/x"] }
    ∧ unloadPathEnv id
        (strings.Join ["/opt/tool/bin", "/opt/x"] ":" ++ ":" ++ "/usr/bin:/bin")
        ["/opt/tool/bin", "/opt/x"] = "/usr/bin:/bin" :=
  unload_undoes_load id { Profile.empty with Path := ["/opt/tool/bin", "/opt/x"] }
    "/usr/bin:/bin" (by decide) (by decide) (by decide) (by decide)

/-- C10: `removeFromPath` is idempotent in its first argument, for every path and
every target. -/
theorem removeFromPath_idempotent (path target : String) :
    removeFromPath (removeFromPath path target) target = removeFromPath path target := by
  rw [removeFromPath_eq_filter path target]
  by_cases h0 : (strings.Split path ':').filter (fun seg => decide (seg ≠ target)) = []
  · rw [h0, strings.Join_nil, removeFromPath_empty]
  · rw [removeFromPath_eq_filter, strings.Split_Join _ h0
      (fun x hx => strings.not_mem_of_mem_Split path x (List.mem_of_mem_filter hx)),
      List.filter_filter]
    congr 1
    apply List.filter_congr
    intro seg _
    simp
